import Mathlib

/-!
Shallow embedding of `astrobase/periodbase/spdm.py` (Stellingwerf phase-dispersion
minimization period search) over exact rational arithmetic.

Modelling conventions, used throughout:
* numpy floating-point values are modelled as `ℚ`; a possibly non-finite float
  (nan or inf) is modelled as `Option ℚ`, with `none` standing for any
  non-finite value.  `npisfinite` filtering therefore becomes `Option`
  matching.  Arithmetic that propagates nan, and division by zero (which in
  numpy produces inf or nan), is modelled by the `Option`-valued helpers below.
* a Python function that can raise is modelled as `Except String _`; the
  `String` carries the exception's description.
* the worker pool (`multiprocessing.Pool.map`) preserves task order, so it is
  modelled by `List.map`.
-/

attribute [local semireducible] Rat.add Rat.mul Rat.sub Rat.inv

/-- nan-propagating product of two possibly non-finite values. -/
def omul : Option ℚ → Option ℚ → Option ℚ
  | some a, some b => some (a * b)
  | _, _ => none

/-- nan-propagating quotient: division by zero (inf or nan in numpy) is
modelled as non-finite. -/
def odiv : Option ℚ → Option ℚ → Option ℚ
  | some a, some b => if b = 0 then none else some (a / b)
  | _, _ => none

/-- nan-propagating sum of a list of possibly non-finite values
(`np.sum` over an array that may contain nan). -/
def osum : List (Option ℚ) → Option ℚ
  | [] => some 0
  | x :: xs =>
    match x, osum xs with
    | some a, some b => some (a + b)
    | _, _ => none

/-- `np.var(xs, ddof=1)`: the unbiased sample variance.  With fewer than two
samples numpy produces nan (`0/0`), modelled as `none`. -/
def npvar (xs : List ℚ) : Option ℚ :=
  if 2 ≤ xs.length then
    some (((xs.map (fun x => (x - xs.sum / (xs.length : ℚ)) ^ 2)).sum) /
      ((xs.length : ℚ) - 1))
  else none

/-- `np.arange(start, stop, step)` over exact rationals: the values
`start + k·step` for `0 ≤ k < ⌈(stop − start)/step⌉`.  numpy raises on a zero
step; that case is unexercised here and modelled as the empty grid. -/
def nparange (start stop step : ℚ) : List ℚ :=
  if step = 0 then []
  else (List.range (Int.ceil ((stop - start) / step)).toNat).map
    (fun k : ℕ => start + (k : ℚ) * step)

/-- `np.digitize(p, bins)` for an increasing boundary list (the only use in
the source): the index of `p` is the number of boundaries `≤ p`. -/
def npdigitize (p : ℚ) (bins : List ℚ) : ℕ :=
  (bins.filter (fun x => x ≤ p)).length

/-- Modelled from the spec: `phase_magseries` is imported from
`astrobase/lcmath.py`, which is not among the provided sources.  Per spec
§4.3 the phase of a sample is `fractional_part((time − origin)/period)`,
always in `[0,1)`.  The spec also states that correctness depends only on
grouping by bin, never on the phase-sorted order, so the `sort=True` output
order is modelled as the input order. -/
def phase_magseries (times mags : List ℚ) (period fold_time : ℚ) :
    List (ℚ × ℚ) :=
  (times.zip mags).map (fun tm => (Int.fract ((tm.1 - fold_time) / period), tm.2))

/-- `stellingwerf_pdm_theta`: the PDM theta statistic at one trial frequency
(spdm.py lines 101-150).  An empty `times` raises (`times[0]`), modelled as
`Except.error`; a non-finite theta value is `Except.ok none`.  `errs` is
accepted but unused, exactly as in the source. -/
def stellingwerf_pdm_theta (times mags errs : List ℚ) (frequency : ℚ)
    (binsize : ℚ) (minbin : ℕ) : Except String (Option ℚ) :=
  match times with
  | [] => .error "IndexError: index 0 is out of bounds"
  | t0 :: _ =>
    let period := 1 / frequency
    let phased := phase_magseries times mags period t0
    let pmags := phased.map Prod.snd
    let bins := nparange 0 1 binsize
    let goodstats := (List.range (bins.length + 1)).filterMap (fun j =>
      let thisbin_mags :=
        (phased.filter (fun pm => npdigitize pm.1 bins = j)).map Prod.snd
      if minbin < thisbin_mags.length then
        some (npvar thisbin_mags, (thisbin_mags.length : ℚ))
      else none)
    let theta_top :=
      odiv (osum (goodstats.map (fun s => omul s.1 (some (s.2 - 1)))))
        (some ((goodstats.map (fun s => s.2)).sum - (goodstats.length : ℚ)))
    let theta_bot := npvar pmags
    .ok (odiv theta_top theta_bot)

/-- The body of the worker's `try` block: destructure the task tuple and
evaluate theta (spdm.py lines 167-174). -/
def pdm_task_theta (task : List ℚ × List ℚ × List ℚ × ℚ × ℚ × ℕ) :
    Except String (Option ℚ) :=
  let (times, mags, errs, frequency, binsize, minbin) := task
  stellingwerf_pdm_theta times mags errs frequency binsize minbin

/-- `stellingwerf_pdm_worker`: evaluates theta for one task and converts any
exception into the nan sentinel (spdm.py lines 154-178). -/
def stellingwerf_pdm_worker (task : List ℚ × List ℚ × List ℚ × ℚ × ℚ × ℕ) :
    Option ℚ :=
  match pdm_task_theta task with
  | .ok theta => theta
  | .error _ => none

/-- `np.median`: sort, then take the middle element (odd length) or the mean of
the two middle elements (even length). -/
def npmedian (xs : List ℚ) : ℚ :=
  let s := List.insertionSort (fun a b : ℚ => a ≤ b) xs
  if xs.length % 2 = 1 then s.getD (xs.length / 2) 0
  else (s.getD (xs.length / 2 - 1) 0 + s.getD (xs.length / 2) 0) / 2

/-- `np.max` of a list (used only on nonempty lists). -/
def npmax (xs : List ℚ) : ℚ := xs.foldl max (xs.headD 0)

/-- `np.min` of a list (used only on nonempty lists). -/
def npmin (xs : List ℚ) : ℚ := xs.foldl min (xs.headD 0)

/-- The finiteness filter of `stellingwerf_pdm` (spdm.py lines 200-204):
keep exactly the samples whose time, magnitude and error are all finite.
The LightCurve invariant says the three input sequences have equal length, so
they are traversed together. -/
def pdm_finite_triples (times mags errs : List (Option ℚ)) :
    List (ℚ × ℚ × ℚ) :=
  (times.zip (mags.zip errs)).filterMap (fun tme =>
    match tme with
    | (some t, some m, some e) => some (t, m, e)
    | _ => none)

/-- The robust scale estimate of `stellingwerf_pdm` (spdm.py line 210):
`1.483` times the median absolute deviation of the magnitudes from their
median. -/
def pdm_stddev_mag (fmags : List ℚ) : ℚ :=
  npmedian (fmags.map (fun m => |m - npmedian fmags|)) * (1483 / 1000)

/-- The sigma-clipping step of `stellingwerf_pdm` (spdm.py lines 213-229).
`sigclip` follows Python truthiness: `None` or `0.0` disables clipping;
otherwise points with `|mag − median| < sigclip · scale` are retained. -/
def pdm_sigclipped (triples : List (ℚ × ℚ × ℚ)) (sigclip : Option ℚ) :
    List (ℚ × ℚ × ℚ) :=
  let fmags := triples.map (fun x => x.2.1)
  let median_mag := npmedian fmags
  let stddev_mag := pdm_stddev_mag fmags
  if sigclip.getD 0 ≠ 0 then
    triples.filter (fun x => |x.2.1 - median_mag| < sigclip.getD 0 * stddev_mag)
  else triples

/-- The minimum trial frequency of `stellingwerf_pdm` (spdm.py lines 241-245):
`1/endp` when a truthy `endp` is supplied, else `1/(max(times) − min(times))`. -/
def pdm_startf (endp : Option ℚ) (stimes : List ℚ) : ℚ :=
  if endp.getD 0 ≠ 0 then 1 / endp.getD 0
  else 1 / (npmax stimes - npmin stimes)

/-- The trial-frequency grid of `stellingwerf_pdm` (spdm.py lines 235-265).
`gridf` is the imported collaborator `get_frequency_grid`, used when
`autofreq` is true; otherwise the grid is `np.arange(startf, endf, stepsize)`.
A truthy `startp` gives `endf = 1/startp`, else `endf = 1/0.1`. -/
def pdm_frequencies (gridf : List ℚ → ℚ → ℚ → List ℚ) (autofreq : Bool)
    (stimes : List ℚ) (startp endp : Option ℚ) (stepsize : ℚ) : List ℚ :=
  let endf := if startp.getD 0 ≠ 0 then 1 / startp.getD 0 else 1 / (1 / 10)
  let startf := pdm_startf endp stimes
  if autofreq then gridf stimes startf endf
  else nparange startf endf stepsize

/-- The result record of `stellingwerf_pdm` (spdm.py lines 343-373).  A null
array field is `none`; a non-finite scalar sentinel is `none`. -/
structure SearchResult where
  bestperiod : Option ℚ
  bestlspval : Option ℚ
  nbestpeaks : ℕ
  nbestlspvals : Option (List ℚ)
  nbestperiods : Option (List ℚ)
  lspvals : Option (List (Option ℚ))
  periods : Option (List ℚ)
  method : String
  deriving DecidableEq

/-- The sentinel result returned when too few points survive cleaning
(spdm.py lines 355-362 and 366-373). -/
def pdm_null_result (nbestpeaks : ℕ) : SearchResult :=
  { bestperiod := none, bestlspval := none, nbestpeaks := nbestpeaks,
    nbestlspvals := none, nbestperiods := none, lspvals := none,
    periods := none, method := "pdm" }

/-- The finite `(period, theta)` pairs of the spectrum (spdm.py lines
298-300): non-finite theta entries are dropped together with their periods. -/
def pdm_finite_pairs (lsp : List (Option ℚ)) (periods : List ℚ) :
    List (ℚ × ℚ) :=
  (periods.zip lsp).filterMap (fun pl =>
    match pl.2 with
    | some v => some (pl.1, v)
    | none => none)

/-- `np.argmin` over the theta values of a nonempty pair list, keeping the
first pair attaining the minimum (spdm.py line 303). -/
def pdm_argmin (x : ℚ × ℚ) (xs : List (ℚ × ℚ)) : ℚ × ℚ :=
  xs.foldl (fun best y => if y.2 < best.2 then y else best) x

/-- The peak-deduplication walk of `stellingwerf_pdm` (spdm.py lines
311-340): walk the theta-sorted `(period, theta)` pairs, stop once
`nbestpeaks` peaks are accepted, accept a candidate only if its distance to
the previous candidate and to every already accepted period exceeds
`periodepsilon`, and update the previous candidate on every step. -/
def pdm_walk (periodepsilon : ℚ) (nbestpeaks : ℕ) :
    List (ℚ × ℚ) → ℚ → List (ℚ × ℚ) → ℕ → List (ℚ × ℚ)
  | [], _, acc, _ => acc
  | (period, lspval) :: rest, prevperiod, acc, peakcount =>
    if peakcount = nbestpeaks then acc
    else if periodepsilon < |period - prevperiod| ∧
        ∀ x ∈ acc, periodepsilon < |period - x.1| then
      pdm_walk periodepsilon nbestpeaks rest period
        (acc ++ [(period, lspval)]) (peakcount + 1)
    else pdm_walk periodepsilon nbestpeaks rest period acc peakcount

/-- Peak selection of `stellingwerf_pdm` (spdm.py lines 297-350): filter the
non-finite theta values, take `np.argmin` (which raises on an empty array,
modelled as `Except.error`), sort the finite pairs by theta ascending, run
the deduplication walk seeded with the global minimum, and assemble the
result record. -/
def pdm_peak_select (lsp : List (Option ℚ)) (periods : List ℚ)
    (nbestpeaks : ℕ) (periodepsilon : ℚ) : Except String SearchResult :=
  match pdm_finite_pairs lsp periods with
  | [] => .error "ValueError: attempt to get argmin of an empty sequence"
  | f0 :: frest =>
    let best := pdm_argmin f0 frest
    let sortedf := List.insertionSort (fun a b : ℚ × ℚ => a.2 ≤ b.2) (f0 :: frest)
    let prevperiod := (sortedf.headD f0).1
    let nbest := pdm_walk periodepsilon nbestpeaks sortedf prevperiod [best] 1
    .ok { bestperiod := some best.1, bestlspval := some best.2,
          nbestpeaks := nbestpeaks,
          nbestlspvals := some (nbest.map Prod.snd),
          nbestperiods := some (nbest.map Prod.fst),
          lspvals := some lsp, periods := some periods, method := "pdm" }

/-- `stellingwerf_pdm` (spdm.py lines 182-373).  `gridf` models the imported
collaborator `get_frequency_grid`.  Input samples are possibly non-finite
(`none`), traversed as equal-length triples per the LightCurve invariant.
The `normalize=True` branch rescales magnitudes by a standard deviation — a
square root with no exact rational embedding — and every claim concerns the
default `normalize=False`, so the embedding fixes that branch.  The worker
pool is order-preserving `pool.map`, modelled by `List.map`. -/
def stellingwerf_pdm (gridf : List ℚ → ℚ → ℚ → List ℚ)
    (times mags errs : List (Option ℚ)) (autofreq : Bool)
    (startp endp : Option ℚ) (stepsize phasebinsize : ℚ)
    (mindetperbin nbestpeaks : ℕ) (periodepsilon : ℚ)
    (sigclip : Option ℚ) : Except String SearchResult :=
  let ftriples := pdm_finite_triples times mags errs
  if 9 < ftriples.length then
    let striples := pdm_sigclipped ftriples sigclip
    if 9 < striples.length then
      let stimes := striples.map (fun x => x.1)
      let smags := striples.map (fun x => x.2.1)
      let serrs := striples.map (fun x => x.2.2)
      let frequencies := pdm_frequencies gridf autofreq stimes startp endp stepsize
      let lsp := frequencies.map (fun x =>
        stellingwerf_pdm_worker (stimes, smags, serrs, x, phasebinsize, mindetperbin))
      let periods := frequencies.map (fun f => 1 / f)
      pdm_peak_select lsp periods nbestpeaks periodepsilon
    else .ok (pdm_null_result nbestpeaks)
  else .ok (pdm_null_result nbestpeaks)

/-- Spec-side definition (§4.4, to be compared with the source embedding):
the magnitudes of the `k`-th phase bin, `0 ≤ k < nbins`, where the bins
partition the phases with the half-open boundaries `0, binsize, 2·binsize, …`
and the last bin absorbs everything from its left boundary on. -/
def specBinMags (phased : List (ℚ × ℚ)) (binsize : ℚ) (nbins k : ℕ) :
    List ℚ :=
  (phased.filter (fun pm => (k : ℚ) * binsize ≤ pm.1 ∧
    (pm.1 < ((k : ℚ) + 1) * binsize ∨ k + 1 = nbins))).map Prod.snd

/-- Spec-side definition (§4.4, to be compared with the source embedding):
theta as the spec words it — fold, partition into the boundary bins, keep the
bins with strictly more than `minbin` members, and form
`[Σ varᵢ·(nᵢ − 1)] / [Σ nᵢ − goodbins] / var(all folded mags)` with unbiased
variances. -/
def specTheta (times mags : List ℚ) (frequency binsize : ℚ) (minbin : ℕ) :
    Option ℚ :=
  match times with
  | [] => none
  | t0 :: _ =>
    let phased := phase_magseries times mags (1 / frequency) t0
    let nbins := (Int.ceil (1 / binsize)).toNat
    let stats := (List.range nbins).filterMap (fun k =>
      if minbin < (specBinMags phased binsize nbins k).length then
        some (npvar (specBinMags phased binsize nbins k),
          ((specBinMags phased binsize nbins k).length : ℚ))
      else none)
    odiv (odiv (osum (stats.map (fun s => omul s.1 (some (s.2 - 1)))))
        (some ((stats.map (fun s => s.2)).sum - (stats.length : ℚ))))
      (npvar (phased.map Prod.snd))

/-! ## Helper lemmas -/

theorem pdm_argmin_cons (x z : ℚ × ℚ) (zs : List (ℚ × ℚ)) :
    pdm_argmin x (z :: zs) = pdm_argmin (if z.2 < x.2 then z else x) zs := by
  simp [pdm_argmin]

theorem pdm_argmin_mem : ∀ (xs : List (ℚ × ℚ)) (x : ℚ × ℚ),
    pdm_argmin x xs ∈ x :: xs := by
  intro xs
  induction xs with
  | nil => intro x; simp [pdm_argmin]
  | cons z zs ih =>
    intro x
    rw [pdm_argmin_cons]
    rcases List.mem_cons.mp (ih (if z.2 < x.2 then z else x)) with h | h
    · rw [h]
      split
      · exact List.mem_cons_of_mem _ (List.mem_cons_self _ _)
      · exact List.mem_cons_self _ _
    · exact List.mem_cons_of_mem _ (List.mem_cons_of_mem _ h)

theorem pdm_argmin_le : ∀ (xs : List (ℚ × ℚ)) (x y : ℚ × ℚ),
    y ∈ x :: xs → (pdm_argmin x xs).2 ≤ y.2 := by
  intro xs
  induction xs with
  | nil =>
    intro x y hy
    rcases List.mem_cons.mp hy with h | h
    · rw [h]; simp [pdm_argmin]
    · exact absurd h (List.not_mem_nil y)
  | cons z zs ih =>
    intro x y hy
    rw [pdm_argmin_cons]
    have hm : (pdm_argmin (if z.2 < x.2 then z else x) zs).2 ≤
        (if z.2 < x.2 then z else x).2 :=
      ih _ _ (List.mem_cons_self _ _)
    rcases List.mem_cons.mp hy with h | h
    · rw [h]
      refine le_trans hm ?_
      split
      · next hlt => exact le_of_lt hlt
      · exact le_refl _
    · rcases List.mem_cons.mp h with h2 | h2
      · rw [h2]
        refine le_trans hm ?_
        split
        · exact le_refl _
        · next hlt => exact le_of_not_lt hlt
      · exact ih _ _ (List.mem_cons_of_mem _ h2)

theorem pdm_walk_append (periodepsilon : ℚ) (nbestpeaks : ℕ) :
    ∀ (l : List (ℚ × ℚ)) (prev : ℚ) (acc : List (ℚ × ℚ)) (c : ℕ),
      ∃ tail, pdm_walk periodepsilon nbestpeaks l prev acc c = acc ++ tail := by
  intro l
  induction l with
  | nil => exact fun prev acc c => ⟨[], by simp [pdm_walk]⟩
  | cons p rest ih =>
    intro prev acc c
    obtain ⟨period, lspval⟩ := p
    rw [pdm_walk]
    split
    · exact ⟨[], by simp⟩
    · split
      · obtain ⟨t, ht⟩ := ih period (acc ++ [(period, lspval)]) (c + 1)
        exact ⟨(period, lspval) :: t, by rw [ht, List.append_assoc]; rfl⟩
      · exact ih period acc c

theorem pdm_walk_pairwise (periodepsilon : ℚ) (nbestpeaks : ℕ) :
    ∀ (l : List (ℚ × ℚ)) (prev : ℚ) (acc : List (ℚ × ℚ)) (c : ℕ),
      acc.Pairwise (fun a b => periodepsilon < |a.1 - b.1|) →
      (pdm_walk periodepsilon nbestpeaks l prev acc c).Pairwise
        (fun a b => periodepsilon < |a.1 - b.1|) := by
  intro l
  induction l with
  | nil => intro prev acc c hacc; simpa [pdm_walk] using hacc
  | cons p rest ih =>
    intro prev acc c hacc
    obtain ⟨period, lspval⟩ := p
    rw [pdm_walk]
    split
    · exact hacc
    · split
      · next hcond =>
        refine ih period _ (c + 1) ?_
        refine List.pairwise_append.mpr ⟨hacc, List.pairwise_singleton _ _, ?_⟩
        intro a ha b hb
        have hb' : b = (period, lspval) := by simpa using hb
        rw [hb']
        have := hcond.2 a ha
        calc periodepsilon < |period - a.1| := this
          _ = |a.1 - period| := abs_sub_comm _ _
      · exact ih period acc c hacc

theorem pdm_walk_length_le (periodepsilon : ℚ) (nbestpeaks : ℕ) :
    ∀ (l : List (ℚ × ℚ)) (prev : ℚ) (acc : List (ℚ × ℚ)) (c : ℕ),
      (pdm_walk periodepsilon nbestpeaks l prev acc c).length ≤
        acc.length + l.length := by
  intro l
  induction l with
  | nil => intro prev acc c; simp [pdm_walk]
  | cons p rest ih =>
    intro prev acc c
    obtain ⟨period, lspval⟩ := p
    rw [pdm_walk]
    split
    · simp
    · split
      · have := ih period (acc ++ [(period, lspval)]) (c + 1)
        simp only [List.length_append, List.length_cons, List.length_nil] at this ⊢
        omega
      · have := ih period acc c
        simp only [List.length_cons]
        omega

theorem pdm_walk_length_le_nbestpeaks (periodepsilon : ℚ) (nbestpeaks : ℕ) :
    ∀ (l : List (ℚ × ℚ)) (prev : ℚ) (acc : List (ℚ × ℚ)) (c : ℕ),
      acc.length = c → c ≤ nbestpeaks →
      (pdm_walk periodepsilon nbestpeaks l prev acc c).length ≤ nbestpeaks := by
  intro l
  induction l with
  | nil => intro prev acc c hlen hc; simpa [pdm_walk, hlen] using hc
  | cons p rest ih =>
    intro prev acc c hlen hc
    obtain ⟨period, lspval⟩ := p
    rw [pdm_walk]
    split
    · next heq => omega
    · next hne =>
      split
      · refine ih period _ (c + 1) (by simp [hlen]) (by omega)
      · exact ih period acc c hlen hc

/-! ## Claim theorems -/

/-- Claim C10: the theta statistic is independent of the measurement
uncertainties — for fixed times, mags, frequency, binsize and minbin, any two
errs arrays give the same result of `stellingwerf_pdm_theta`. -/
theorem stellingwerf_pdm_theta_ignores_errs (times mags errs1 errs2 : List ℚ)
    (frequency binsize : ℚ) (minbin : ℕ) :
    stellingwerf_pdm_theta times mags errs1 frequency binsize minbin =
      stellingwerf_pdm_theta times mags errs2 frequency binsize minbin := rfl

/-- Claim C2 (code bug): with no `endp` supplied and cleaned times `0..9`
(baseline 9), the code sets the minimum trial frequency `startf` to the
reciprocal of the full baseline, `1/9`, not to `2/baseline = 2/9` as the
spec and the code's own inline comment ("default end period is length of
time series divided by 2") state. -/
theorem pdm_startf_default_is_full_baseline :
    pdm_startf none [0, 1, 2, 3, 4, 5, 6, 7, 8, 9] = 1 / 9 ∧
    ((1 : ℚ) / 9) ≠ 2 / 9 := by decide

/-- Claim C8 counterexample: on magnitudes `[0, 1, 2]` the median absolute
deviation is `1`, and the code's robust scale is `1.483`, which is not
`1.4826 × 1` — so the scale is not exactly `1.4826` times the MAD. -/
theorem pdm_stddev_mag_not_14826 :
    pdm_stddev_mag [0, 1, 2] = 1483 / 1000 ∧
    npmedian (([0, 1, 2] : List ℚ).map (fun m => |m - npmedian [0, 1, 2]|)) = 1 ∧
    ¬ pdm_stddev_mag [0, 1, 2] = (14826 / 10000) *
      npmedian (([0, 1, 2] : List ℚ).map (fun m => |m - npmedian [0, 1, 2]|)) := by
  decide

/-- Claim C8 (amended): the robust scale equals `1.483` (not `1.4826`) times
the median absolute deviation of the magnitudes from their median, and for a
truthy `sigclip` value the clip retains exactly the points with
`|mag − median| < sigclip × scale`. -/
theorem pdm_sigclip_scale_and_retention (triples : List (ℚ × ℚ × ℚ)) (s : ℚ)
    (hs : s ≠ 0) :
    pdm_stddev_mag (triples.map (fun x => x.2.1)) =
      (1483 / 1000) * npmedian ((triples.map (fun x => x.2.1)).map
        (fun m => |m - npmedian (triples.map (fun x => x.2.1))|)) ∧
    pdm_sigclipped triples (some s) = triples.filter (fun x =>
      |x.2.1 - npmedian (triples.map (fun y => y.2.1))| <
        s * pdm_stddev_mag (triples.map (fun y => y.2.1))) := by
  constructor
  · rw [pdm_stddev_mag, mul_comm]
  · rw [pdm_sigclipped]
    simp only [Option.getD_some]
    rw [if_pos hs]

theorem pdm_sigclip_scale_and_retention_witness :
    ((10 : ℚ) ≠ 0) ∧
    (pdm_stddev_mag ([((0:ℚ), (0:ℚ), (1:ℚ)), (1, 5, 1)].map (fun x => x.2.1)) =
      (1483 / 1000) * npmedian (([((0:ℚ), (0:ℚ), (1:ℚ)), (1, 5, 1)].map (fun x => x.2.1)).map
        (fun m => |m - npmedian ([((0:ℚ), (0:ℚ), (1:ℚ)), (1, 5, 1)].map (fun x => x.2.1))|)) ∧
    pdm_sigclipped [((0:ℚ), (0:ℚ), (1:ℚ)), (1, 5, 1)] (some 10) =
      [((0:ℚ), (0:ℚ), (1:ℚ)), (1, 5, 1)].filter (fun x =>
      |x.2.1 - npmedian ([((0:ℚ), (0:ℚ), (1:ℚ)), (1, 5, 1)].map (fun y => y.2.1))| <
        10 * pdm_stddev_mag ([((0:ℚ), (0:ℚ), (1:ℚ)), (1, 5, 1)].map (fun y => y.2.1)))) :=
  ⟨by decide, pdm_sigclip_scale_and_retention [(0, 0, 1), (1, 5, 1)] 10 (by decide)⟩

/-- Claim C3 counterexample: with finite thetas at periods `1` and `1.05`,
`nbestpeaks = 5` and `periodepsilon = 0.1`, the two finite periods are closer
than `periodepsilon`, so only one peak is reported: `len(nbestperiods) = 1`
while `min(nbestpeaks, count of finite theta entries) = min 5 2 = 2`. -/
theorem pdm_peak_count_not_min :
    (pdm_peak_select [some 1, some 2] [1, 21/20] 5 (1/10)).toOption.map
      (fun r => r.nbestperiods.map List.length) = some (some 1) ∧
    (pdm_finite_pairs [some 1, some 2] [1, 21/20]).length = 2 ∧
    (1 : ℕ) ≠ min 5 2 := by decide

/-- Claim C1 (code bug): a 10-point input that passes both minimum-size
guards but whose single grid frequency yields a non-finite theta
(`mindetperbin = 100` exceeds every bin population).  Contrary to the claim,
`stellingwerf_pdm` does not return a SearchResult: `np.argmin` over the
empty finite-theta array raises, and the exception propagates. -/
theorem stellingwerf_pdm_all_nonfinite_raises :
    (pdm_finite_triples
      [some 0, some 1, some 2, some 3, some 4, some 5, some 6, some 7, some 8, some 9]
      [some 0, some 1, some 0, some 1, some 0, some 1, some 0, some 1, some 0, some 1]
      [some 1, some 1, some 1, some 1, some 1, some 1, some 1, some 1, some 1, some 1]).length = 10 ∧
    ((pdm_frequencies (fun _ _ _ => []) false [0, 1, 2, 3, 4, 5, 6, 7, 8, 9]
        (some 1) (some 2) 1).map (fun x => stellingwerf_pdm_worker
        ([0, 1, 2, 3, 4, 5, 6, 7, 8, 9], [0, 1, 0, 1, 0, 1, 0, 1, 0, 1],
         [1, 1, 1, 1, 1, 1, 1, 1, 1, 1], x, 1/20, 100))) = [none] ∧
    stellingwerf_pdm (fun _ _ _ => [])
      [some 0, some 1, some 2, some 3, some 4, some 5, some 6, some 7, some 8, some 9]
      [some 0, some 1, some 0, some 1, some 0, some 1, some 0, some 1, some 0, some 1]
      [some 1, some 1, some 1, some 1, some 1, some 1, some 1, some 1, some 1, some 1]
      false (some 1) (some 2) 1 (1/20) 100 5 (1/10) none =
      .error "ValueError: attempt to get argmin of an empty sequence" := by
  refine ⟨by decide, by decide, ?_⟩
  rfl

/-- Claim C5: with fewer than 10 finite samples, or fewer than 10 samples
surviving the sigma-clip, `stellingwerf_pdm` returns (never raises) the
sentinel SearchResult whose bestperiod and bestlspval are non-finite and
whose array-valued fields are null. -/
theorem stellingwerf_pdm_insufficient_data (gridf : List ℚ → ℚ → ℚ → List ℚ)
    (times mags errs : List (Option ℚ)) (autofreq : Bool)
    (startp endp : Option ℚ) (stepsize phasebinsize : ℚ)
    (mindetperbin nbestpeaks : ℕ) (periodepsilon : ℚ) (sigclip : Option ℚ)
    (h : (pdm_finite_triples times mags errs).length < 10 ∨
      (pdm_sigclipped (pdm_finite_triples times mags errs) sigclip).length < 10) :
    stellingwerf_pdm gridf times mags errs autofreq startp endp stepsize
        phasebinsize mindetperbin nbestpeaks periodepsilon sigclip =
      .ok (pdm_null_result nbestpeaks) ∧
    (pdm_null_result nbestpeaks).bestperiod = none ∧
    (pdm_null_result nbestpeaks).bestlspval = none ∧
    (pdm_null_result nbestpeaks).nbestlspvals = none ∧
    (pdm_null_result nbestpeaks).nbestperiods = none ∧
    (pdm_null_result nbestpeaks).lspvals = none ∧
    (pdm_null_result nbestpeaks).periods = none := by
  refine ⟨?_, rfl, rfl, rfl, rfl, rfl, rfl⟩
  simp only [stellingwerf_pdm]
  split_ifs with h1 h2
  · rcases h with h | h <;> omega
  · rfl
  · rfl

theorem stellingwerf_pdm_insufficient_data_witness :
    ((pdm_finite_triples [some 0] [some 1] [some 1]).length < 10 ∨
      (pdm_sigclipped (pdm_finite_triples [some 0] [some 1] [some 1]) none).length < 10) ∧
    (stellingwerf_pdm (fun _ _ _ => []) [some 0] [some 1] [some 1] true none none
        (1/10000) (1/20) 9 5 (1/10) none = .ok (pdm_null_result 5) ∧
      (pdm_null_result 5).bestperiod = none ∧
      (pdm_null_result 5).bestlspval = none ∧
      (pdm_null_result 5).nbestlspvals = none ∧
      (pdm_null_result 5).nbestperiods = none ∧
      (pdm_null_result 5).lspvals = none ∧
      (pdm_null_result 5).periods = none) :=
  ⟨Or.inl (by decide),
    stellingwerf_pdm_insufficient_data (fun _ _ _ => []) [some 0] [some 1] [some 1]
      true none none (1/10000) (1/20) 9 5 (1/10) none (Or.inl (by decide))⟩

/-- Claim C6: an exception inside one per-frequency theta evaluation is
caught in the worker and replaced by the nan sentinel for that grid point
only; every other grid point's result is exactly its own worker evaluation,
unaffected. -/
theorem stellingwerf_pdm_worker_isolates_failures
    (tasks : List (List ℚ × List ℚ × List ℚ × ℚ × ℚ × ℕ)) (i : ℕ)
    (hi : i < tasks.length) (msg : String)
    (herr : pdm_task_theta (tasks.get ⟨i, hi⟩) = .error msg) :
    (tasks.map stellingwerf_pdm_worker).get? i = some none ∧
    ∀ j, j ≠ i → (tasks.map stellingwerf_pdm_worker).get? j =
      (tasks.get? j).map stellingwerf_pdm_worker := by
  constructor
  · rw [List.get?_map, List.get?_eq_get hi]
    simp only [List.get_eq_getElem] at herr
    simp [stellingwerf_pdm_worker, herr]
  · intro j _
    exact List.get?_map stellingwerf_pdm_worker tasks j

/-- A two-task list whose first task has empty times, so its theta evaluation
raises; used to witness the per-task failure isolation. -/
def c6tasks : List (List ℚ × List ℚ × List ℚ × ℚ × ℚ × ℕ) :=
  [([], [], [], 1, 1/20, 9), ([0], [1], [1], 1, 1/20, 9)]

theorem stellingwerf_pdm_worker_isolates_failures_witness :
    (pdm_task_theta (c6tasks.get ⟨0, by decide⟩) =
      .error "IndexError: index 0 is out of bounds") ∧
    ((c6tasks.map stellingwerf_pdm_worker).get? 0 = some none ∧
    ∀ j, j ≠ 0 → (c6tasks.map stellingwerf_pdm_worker).get? j =
      (c6tasks.get? j).map stellingwerf_pdm_worker) :=
  ⟨rfl, stellingwerf_pdm_worker_isolates_failures c6tasks 0 (by decide)
    "IndexError: index 0 is out of bounds" rfl⟩

theorem pdm_peak_select_empty (lsp : List (Option ℚ)) (periods : List ℚ)
    (nbestpeaks : ℕ) (periodepsilon : ℚ)
    (hfp : pdm_finite_pairs lsp periods = []) :
    pdm_peak_select lsp periods nbestpeaks periodepsilon =
      .error "ValueError: attempt to get argmin of an empty sequence" := by
  rw [pdm_peak_select, hfp]

theorem pdm_peak_select_eq (lsp : List (Option ℚ)) (periods : List ℚ)
    (nbestpeaks : ℕ) (periodepsilon : ℚ) (f0 : ℚ × ℚ) (frest : List (ℚ × ℚ))
    (hfp : pdm_finite_pairs lsp periods = f0 :: frest) :
    pdm_peak_select lsp periods nbestpeaks periodepsilon = .ok
      { bestperiod := some (pdm_argmin f0 frest).1,
        bestlspval := some (pdm_argmin f0 frest).2,
        nbestpeaks := nbestpeaks,
        nbestlspvals := some ((pdm_walk periodepsilon nbestpeaks
          (List.insertionSort (fun a b : ℚ × ℚ => a.2 ≤ b.2) (f0 :: frest))
          ((List.insertionSort (fun a b : ℚ × ℚ => a.2 ≤ b.2)
            (f0 :: frest)).headD f0).1
          [pdm_argmin f0 frest] 1).map Prod.snd),
        nbestperiods := some ((pdm_walk periodepsilon nbestpeaks
          (List.insertionSort (fun a b : ℚ × ℚ => a.2 ≤ b.2) (f0 :: frest))
          ((List.insertionSort (fun a b : ℚ × ℚ => a.2 ≤ b.2)
            (f0 :: frest)).headD f0).1
          [pdm_argmin f0 frest] 1).map Prod.fst),
        lspvals := some lsp, periods := some periods, method := "pdm" } := by
  rw [pdm_peak_select, hfp]

/-- Claim C7: when at least one theta is finite, the first reported period
attains the global minimum of the finite theta values, and every two
reported periods are separated by more than `periodepsilon`. -/
theorem pdm_peak_select_best_first_and_separated
    (lsp : List (Option ℚ)) (periods : List ℚ) (nbestpeaks : ℕ)
    (periodepsilon : ℚ) (r : SearchResult) (ps : List ℚ)
    (hr : pdm_peak_select lsp periods nbestpeaks periodepsilon = .ok r)
    (hps : r.nbestperiods = some ps) :
    (∃ p0 theta0, ps.head? = some p0 ∧
      (p0, theta0) ∈ pdm_finite_pairs lsp periods ∧
      ∀ q ∈ pdm_finite_pairs lsp periods, theta0 ≤ q.2) ∧
    ∀ (i j : ℕ) (hi : i < ps.length) (hj : j < ps.length), i ≠ j →
      periodepsilon < |ps.get ⟨i, hi⟩ - ps.get ⟨j, hj⟩| := by
  cases hfp : pdm_finite_pairs lsp periods with
  | nil =>
    rw [pdm_peak_select_empty lsp periods nbestpeaks periodepsilon hfp] at hr
    exact absurd hr (by simp)
  | cons f0 frest =>
    rw [pdm_peak_select_eq lsp periods nbestpeaks periodepsilon f0 frest hfp] at hr
    rw [Except.ok.injEq] at hr
    subst hr
    simp only [Option.some.injEq] at hps
    subst hps
    obtain ⟨tail, htail⟩ := pdm_walk_append periodepsilon nbestpeaks
      (List.insertionSort (fun a b : ℚ × ℚ => a.2 ≤ b.2) (f0 :: frest))
      ((List.insertionSort (fun a b : ℚ × ℚ => a.2 ≤ b.2)
        (f0 :: frest)).headD f0).1
      [pdm_argmin f0 frest] 1
    constructor
    · refine ⟨(pdm_argmin f0 frest).1, (pdm_argmin f0 frest).2, ?_, ?_, ?_⟩
      · rw [htail]
        simp
      · simpa using pdm_argmin_mem frest f0
      · intro q hq
        exact pdm_argmin_le frest f0 q hq
    · have hpw := pdm_walk_pairwise periodepsilon nbestpeaks
        (List.insertionSort (fun a b : ℚ × ℚ => a.2 ≤ b.2) (f0 :: frest))
        ((List.insertionSort (fun a b : ℚ × ℚ => a.2 ≤ b.2)
          (f0 :: frest)).headD f0).1
        [pdm_argmin f0 frest] 1 (List.pairwise_singleton _ _)
      have hpw' : (List.map Prod.fst (pdm_walk periodepsilon nbestpeaks
          (List.insertionSort (fun a b : ℚ × ℚ => a.2 ≤ b.2) (f0 :: frest))
          ((List.insertionSort (fun a b : ℚ × ℚ => a.2 ≤ b.2)
            (f0 :: frest)).headD f0).1
          [pdm_argmin f0 frest] 1)).Pairwise
          (fun a b => periodepsilon < |a - b|) :=
        List.pairwise_map.mpr hpw
      intro i j hi hj hne
      rcases Nat.lt_or_ge i j with hij | hij
      · exact List.pairwise_iff_get.mp hpw' ⟨i, hi⟩ ⟨j, hj⟩ hij
      · have hji : j < i := by omega
        have := List.pairwise_iff_get.mp hpw' ⟨j, hj⟩ ⟨i, hi⟩ hji
        rw [abs_sub_comm]
        exact this

theorem pdm_peak_select_best_first_and_separated_witness :
    (∃ p0 theta0, ([2, 4] : List ℚ).head? = some p0 ∧
      (p0, theta0) ∈ pdm_finite_pairs [some 5, some 1, some 3] [1, 2, 4] ∧
      ∀ q ∈ pdm_finite_pairs [some 5, some 1, some 3] [1, 2, 4], theta0 ≤ q.2) ∧
    ∀ (i j : ℕ) (hi : i < ([2, 4] : List ℚ).length)
      (hj : j < ([2, 4] : List ℚ).length), i ≠ j →
      (1 : ℚ)/2 < |([2, 4] : List ℚ).get ⟨i, hi⟩ - ([2, 4] : List ℚ).get ⟨j, hj⟩| :=
  pdm_peak_select_best_first_and_separated [some 5, some 1, some 3] [1, 2, 4] 2 (1/2)
    { bestperiod := some 2, bestlspval := some 1, nbestpeaks := 2,
      nbestlspvals := some [1, 3], nbestperiods := some [2, 4],
      lspvals := some [some 5, some 1, some 3], periods := some [1, 2, 4],
      method := "pdm" } [2, 4] rfl rfl

/-- Claim C3 (amended): the number of reported best periods always lies
between 1 and `min(nbestpeaks, count of finite theta entries)`; the claimed
equality fails when finite-theta periods sit within `periodepsilon` of each
other (see the counterexample). -/
theorem pdm_peak_count_bounds
    (lsp : List (Option ℚ)) (periods : List ℚ) (nbestpeaks : ℕ)
    (periodepsilon : ℚ) (r : SearchResult) (ps : List ℚ)
    (hnb : 1 ≤ nbestpeaks) (heps : 0 ≤ periodepsilon)
    (hr : pdm_peak_select lsp periods nbestpeaks periodepsilon = .ok r)
    (hps : r.nbestperiods = some ps) :
    1 ≤ ps.length ∧
      ps.length ≤ min nbestpeaks (pdm_finite_pairs lsp periods).length := by
  cases hfp : pdm_finite_pairs lsp periods with
  | nil =>
    rw [pdm_peak_select_empty lsp periods nbestpeaks periodepsilon hfp] at hr
    exact absurd hr (by simp)
  | cons f0 frest =>
    rw [pdm_peak_select_eq lsp periods nbestpeaks periodepsilon f0 frest hfp] at hr
    rw [Except.ok.injEq] at hr
    subst hr
    simp only [Option.some.injEq] at hps
    subst hps
    rw [List.length_map]
    have hperm := List.perm_insertionSort (fun a b : ℚ × ℚ => a.2 ≤ b.2) (f0 :: frest)
    have hlen : (List.insertionSort (fun a b : ℚ × ℚ => a.2 ≤ b.2)
        (f0 :: frest)).length = frest.length + 1 := by
      rw [hperm.length_eq, List.length_cons]
    constructor
    · obtain ⟨tail, htail⟩ := pdm_walk_append periodepsilon nbestpeaks
        (List.insertionSort (fun a b : ℚ × ℚ => a.2 ≤ b.2) (f0 :: frest))
        ((List.insertionSort (fun a b : ℚ × ℚ => a.2 ≤ b.2)
          (f0 :: frest)).headD f0).1
        [pdm_argmin f0 frest] 1
      rw [htail]
      simp
    · have hnbb : (pdm_walk periodepsilon nbestpeaks
          (List.insertionSort (fun a b : ℚ × ℚ => a.2 ≤ b.2) (f0 :: frest))
          ((List.insertionSort (fun a b : ℚ × ℚ => a.2 ≤ b.2)
            (f0 :: frest)).headD f0).1
          [pdm_argmin f0 frest] 1).length ≤ nbestpeaks :=
        pdm_walk_length_le_nbestpeaks periodepsilon nbestpeaks _ _ _ 1 rfl hnb
      have hlenle : (pdm_walk periodepsilon nbestpeaks
          (List.insertionSort (fun a b : ℚ × ℚ => a.2 ≤ b.2) (f0 :: frest))
          ((List.insertionSort (fun a b : ℚ × ℚ => a.2 ≤ b.2)
            (f0 :: frest)).headD f0).1
          [pdm_argmin f0 frest] 1).length ≤ frest.length + 1 := by
        cases hs : List.insertionSort (fun a b : ℚ × ℚ => a.2 ≤ b.2) (f0 :: frest) with
        | nil => rw [hs] at hlen; simp at hlen
        | cons s0 srest =>
          obtain ⟨s0p, s0v⟩ := s0
          rw [hs] at hlen
          simp only [List.length_cons] at hlen
          simp only [List.headD_cons]
          rw [pdm_walk]
          split
          · simp
          · split
            · next hcond =>
              have h0 : |s0p - ((s0p, s0v) : ℚ × ℚ).1| = 0 := by
                simp
              rw [h0] at hcond
              exact absurd hcond.1 (not_lt.mpr heps)
            · have := pdm_walk_length_le periodepsilon nbestpeaks srest
                ((s0p, s0v) : ℚ × ℚ).1 [pdm_argmin f0 frest] 1
              simp only [List.length_cons, List.length_nil] at this
              omega
      rw [List.length_cons]
      omega

theorem pdm_peak_count_bounds_witness :
    ((1 : ℕ) ≤ 1 ∧ (0 : ℚ) ≤ 0) ∧
    (1 ≤ ([5] : List ℚ).length ∧
      ([5] : List ℚ).length ≤ min 1 (pdm_finite_pairs [some 1] [(5 : ℚ)]).length) :=
  ⟨⟨le_refl 1, le_refl 0⟩,
    pdm_peak_count_bounds [some 1] [5] 1 0
      { bestperiod := some 5, bestlspval := some 1, nbestpeaks := 1,
        nbestlspvals := some [1], nbestperiods := some [5],
        lspvals := some [some 1], periods := some [5], method := "pdm" }
      [5] (le_refl 1) (le_refl 0) rfl rfl⟩

/-- Claim C9: on a successful search the returned periods and theta arrays
have the same length as the frequency grid, the i-th theta value is the
worker evaluation at the i-th grid frequency (result order equals grid
order), and `periods[i] = 1/frequencies[i]` at every position. -/
theorem stellingwerf_pdm_grid_alignment (gridf : List ℚ → ℚ → ℚ → List ℚ)
    (times mags errs : List (Option ℚ)) (autofreq : Bool)
    (startp endp : Option ℚ) (stepsize phasebinsize : ℚ)
    (mindetperbin nbestpeaks : ℕ) (periodepsilon : ℚ) (sigclip : Option ℚ)
    (r : SearchResult) (ps : List ℚ) (ls : List (Option ℚ))
    (hr : stellingwerf_pdm gridf times mags errs autofreq startp endp stepsize
      phasebinsize mindetperbin nbestpeaks periodepsilon sigclip = .ok r)
    (hps : r.periods = some ps) (hls : r.lspvals = some ls) :
    ps.length = (pdm_frequencies gridf autofreq
      ((pdm_sigclipped (pdm_finite_triples times mags errs) sigclip).map
        (fun x => x.1)) startp endp stepsize).length ∧
    ls.length = (pdm_frequencies gridf autofreq
      ((pdm_sigclipped (pdm_finite_triples times mags errs) sigclip).map
        (fun x => x.1)) startp endp stepsize).length ∧
    ∀ i : ℕ,
      ps.get? i = ((pdm_frequencies gridf autofreq
        ((pdm_sigclipped (pdm_finite_triples times mags errs) sigclip).map
          (fun x => x.1)) startp endp stepsize).get? i).map (fun f => 1 / f) ∧
      ls.get? i = ((pdm_frequencies gridf autofreq
        ((pdm_sigclipped (pdm_finite_triples times mags errs) sigclip).map
          (fun x => x.1)) startp endp stepsize).get? i).map
          (fun f => stellingwerf_pdm_worker
            ((pdm_sigclipped (pdm_finite_triples times mags errs) sigclip).map
              (fun x => x.1),
             (pdm_sigclipped (pdm_finite_triples times mags errs) sigclip).map
              (fun x => x.2.1),
             (pdm_sigclipped (pdm_finite_triples times mags errs) sigclip).map
              (fun x => x.2.2),
             f, phasebinsize, mindetperbin)) := by
  simp only [stellingwerf_pdm] at hr
  split_ifs at hr with h1 h2
  · cases hfp : pdm_finite_pairs
        ((pdm_frequencies gridf autofreq
          ((pdm_sigclipped (pdm_finite_triples times mags errs) sigclip).map
            (fun x => x.1)) startp endp stepsize).map
          (fun x => stellingwerf_pdm_worker
            ((pdm_sigclipped (pdm_finite_triples times mags errs) sigclip).map
              (fun x => x.1),
             (pdm_sigclipped (pdm_finite_triples times mags errs) sigclip).map
              (fun x => x.2.1),
             (pdm_sigclipped (pdm_finite_triples times mags errs) sigclip).map
              (fun x => x.2.2),
             x, phasebinsize, mindetperbin)))
        ((pdm_frequencies gridf autofreq
          ((pdm_sigclipped (pdm_finite_triples times mags errs) sigclip).map
            (fun x => x.1)) startp endp stepsize).map (fun f => 1 / f)) with
    | nil =>
      rw [pdm_peak_select_empty _ _ nbestpeaks periodepsilon hfp] at hr
      exact absurd hr (by simp)
    | cons f0 frest =>
      rw [pdm_peak_select_eq _ _ nbestpeaks periodepsilon f0 frest hfp] at hr
      rw [Except.ok.injEq] at hr
      subst hr
      simp only [Option.some.injEq] at hps hls
      subst hps
      subst hls
      refine ⟨List.length_map _ _, List.length_map _ _, ?_⟩
      intro i
      constructor
      · exact List.get?_map _ _ i
      · exact List.get?_map _ _ i
  · rw [Except.ok.injEq] at hr
    subst hr
    exact absurd hps (by simp [pdm_null_result])
  · rw [Except.ok.injEq] at hr
    subst hr
    exact absurd hps (by simp [pdm_null_result])

/-- A 10-point light curve with strict period 2 used as a concrete
successful-search input. -/
def c9times : List (Option ℚ) :=
  [some 0, some 1, some 2, some 3, some 4, some 5, some 6, some 7, some 8, some 9]

/-- Magnitudes of the concrete successful-search input. -/
def c9mags : List (Option ℚ) :=
  [some 0, some 1, some 0, some 1, some 0, some 1, some 0, some 1, some 0, some 1]

/-- Errors of the concrete successful-search input. -/
def c9errs : List (Option ℚ) :=
  [some 1, some 1, some 1, some 1, some 1, some 1, some 1, some 1, some 1, some 1]

theorem stellingwerf_pdm_grid_alignment_witness :
    ([(2 : ℚ)] : List ℚ).length = (pdm_frequencies (fun _ _ _ => []) false
      ((pdm_sigclipped (pdm_finite_triples c9times c9mags c9errs) none).map
        (fun x => x.1)) (some 1) (some 2) 1).length ∧
    ([some (0 : ℚ)] : List (Option ℚ)).length = (pdm_frequencies (fun _ _ _ => []) false
      ((pdm_sigclipped (pdm_finite_triples c9times c9mags c9errs) none).map
        (fun x => x.1)) (some 1) (some 2) 1).length ∧
    ∀ i : ℕ,
      ([(2 : ℚ)] : List ℚ).get? i = ((pdm_frequencies (fun _ _ _ => []) false
        ((pdm_sigclipped (pdm_finite_triples c9times c9mags c9errs) none).map
          (fun x => x.1)) (some 1) (some 2) 1).get? i).map (fun f => 1 / f) ∧
      ([some (0 : ℚ)] : List (Option ℚ)).get? i = ((pdm_frequencies (fun _ _ _ => []) false
        ((pdm_sigclipped (pdm_finite_triples c9times c9mags c9errs) none).map
          (fun x => x.1)) (some 1) (some 2) 1).get? i).map
          (fun f => stellingwerf_pdm_worker
            ((pdm_sigclipped (pdm_finite_triples c9times c9mags c9errs) none).map
              (fun x => x.1),
             (pdm_sigclipped (pdm_finite_triples c9times c9mags c9errs) none).map
              (fun x => x.2.1),
             (pdm_sigclipped (pdm_finite_triples c9times c9mags c9errs) none).map
              (fun x => x.2.2),
             f, 1/20, 3)) :=
  stellingwerf_pdm_grid_alignment (fun _ _ _ => []) c9times c9mags c9errs false
    (some 1) (some 2) 1 (1/20) 3 5 (1/10) none
    { bestperiod := some 2, bestlspval := some 0, nbestpeaks := 5,
      nbestlspvals := some [0], nbestperiods := some [2],
      lspvals := some [some 0], periods := some [2], method := "pdm" }
    [2] [some 0] (by rfl) rfl rfl

theorem countP_range_le (n m : ℕ) :
    (List.range n).countP (fun k => decide (k ≤ m)) = min n (m + 1) := by
  induction n with
  | zero => simp
  | succ n ih =>
    rw [List.range_succ, List.countP_append, ih]
    by_cases h : n ≤ m
    · simp only [List.countP_cons, List.countP_nil, h]
      simp
      omega
    · simp only [List.countP_cons, List.countP_nil, h]
      simp
      omega

theorem nparange01_length (b : ℚ) (hb : 0 < b) :
    (nparange 0 1 b).length = (Int.ceil ((1 : ℚ) / b)).toNat := by
  rw [nparange, if_neg (ne_of_gt hb), List.length_map, List.length_range, sub_zero]

theorem npdigitize_nparange (b p : ℚ) (hb : 0 < b) (hp : 0 ≤ p) :
    npdigitize p (nparange 0 1 b) =
      min (Int.ceil ((1 : ℚ) / b)).toNat ((Int.floor (p / b)).toNat + 1) := by
  rw [npdigitize, nparange, if_neg (ne_of_gt hb)]
  rw [← List.countP_eq_length_filter, List.countP_map]
  have hkey : ∀ k ∈ List.range (Int.ceil ((1 - 0 : ℚ) / b)).toNat,
      (((fun x => decide (x ≤ p)) ∘ (fun k : ℕ => (0 : ℚ) + (k : ℚ) * b)) k ↔
      (fun k => decide (k ≤ (Int.floor (p / b)).toNat)) k) := by
    intro k _
    simp only [Function.comp_apply, zero_add, decide_eq_true_eq]
    have h2 : ((k : ℤ) : ℚ) ≤ p / b ↔ (k : ℤ) ≤ Int.floor (p / b) := Int.le_floor.symm
    have h3 : 0 ≤ Int.floor (p / b) :=
      Int.floor_nonneg.mpr (div_nonneg hp (le_of_lt hb))
    rw [← le_div_iff hb]
    constructor
    · intro h
      have := h2.mp (by push_cast; exact h)
      omega
    · intro h
      have h4 : (k : ℤ) ≤ Int.floor (p / b) := by omega
      have := h2.mpr h4
      push_cast at this
      exact this
  rw [List.countP_congr hkey, countP_range_le, sub_zero]

theorem npdigitize_nparange_pos (b p : ℚ) (hb : 0 < b) (hp : 0 ≤ p) :
    1 ≤ npdigitize p (nparange 0 1 b) := by
  rw [npdigitize_nparange b p hb hp]
  have h1 : 0 < Int.ceil ((1 : ℚ) / b) := Int.ceil_pos.mpr (by positivity)
  omega

theorem npdigitize_eq_iff (b p : ℚ) (hb : 0 < b) (hp : 0 ≤ p) (k : ℕ)
    (hk : k + 1 ≤ (Int.ceil ((1 : ℚ) / b)).toNat) :
    npdigitize p (nparange 0 1 b) = k + 1 ↔
      ((k : ℚ) * b ≤ p ∧ (p < ((k : ℚ) + 1) * b ∨ k + 1 = (Int.ceil ((1 : ℚ) / b)).toNat)) := by
  rw [npdigitize_nparange b p hb hp]
  have h3 : 0 ≤ Int.floor (p / b) :=
    Int.floor_nonneg.mpr (div_nonneg hp (le_of_lt hb))
  have h1 : (k : ℚ) * b ≤ p ↔ (k : ℤ) ≤ Int.floor (p / b) := by
    constructor
    · intro h
      exact Int.le_floor.mpr (by push_cast; exact (le_div_iff hb).mpr h)
    · intro h
      have := Int.le_floor.mp h
      push_cast at this
      exact (le_div_iff hb).mp this
  have h2 : p < ((k : ℚ) + 1) * b ↔ Int.floor (p / b) < (k : ℤ) + 1 := by
    constructor
    · intro h
      refine Int.floor_lt.mpr ?_
      push_cast
      exact (div_lt_iff hb).mpr h
    · intro h
      have := Int.floor_lt.mp h
      push_cast at this
      exact (div_lt_iff hb).mp this
  rw [h1, h2]
  omega

theorem phase_magseries_fst_nonneg (times mags : List ℚ) (period fold_time : ℚ) :
    ∀ pm ∈ phase_magseries times mags period fold_time, 0 ≤ pm.1 := by
  intro pm hpm
  rw [phase_magseries] at hpm
  obtain ⟨tm, _, rfl⟩ := List.mem_map.mp hpm
  exact Int.fract_nonneg _

theorem pdm_goodstats_eq (phased : List (ℚ × ℚ)) (b : ℚ) (minbin : ℕ)
    (hb : 0 < b) (hph : ∀ pm ∈ phased, 0 ≤ pm.1) :
    (List.range ((nparange 0 1 b).length + 1)).filterMap (fun j =>
      if minbin < ((phased.filter
          (fun pm => npdigitize pm.1 (nparange 0 1 b) = j)).map Prod.snd).length then
        some (npvar ((phased.filter
            (fun pm => npdigitize pm.1 (nparange 0 1 b) = j)).map Prod.snd),
          (((phased.filter
            (fun pm => npdigitize pm.1 (nparange 0 1 b) = j)).map Prod.snd).length : ℚ))
      else none) =
    (List.range (Int.ceil ((1 : ℚ) / b)).toNat).filterMap (fun k =>
      if minbin < (specBinMags phased b (Int.ceil ((1 : ℚ) / b)).toNat k).length then
        some (npvar (specBinMags phased b (Int.ceil ((1 : ℚ) / b)).toNat k),
          ((specBinMags phased b (Int.ceil ((1 : ℚ) / b)).toNat k).length : ℚ))
      else none) := by
  rw [nparange01_length b hb, List.range_succ_eq_map]
  rw [List.filterMap_cons_none (by
    have hfil : phased.filter
        (fun pm => npdigitize pm.1 (nparange 0 1 b) = 0) = [] := by
      rw [List.filter_eq_nil]
      intro pm hpm
      have := npdigitize_nparange_pos b pm.1 hb (hph pm hpm)
      simp only [decide_eq_true_eq]
      omega
    simp [hfil])]
  rw [List.filterMap_map]
  refine List.filterMap_congr ?_
  intro k hk
  have hk' : k < (Int.ceil ((1 : ℚ) / b)).toNat := List.mem_range.mp hk
  simp only [Function.comp_apply, Nat.succ_eq_add_one]
  have hgroups : phased.filter
      (fun pm => npdigitize pm.1 (nparange 0 1 b) = k + 1) =
      phased.filter (fun pm => (k : ℚ) * b ≤ pm.1 ∧
        (pm.1 < ((k : ℚ) + 1) * b ∨ k + 1 = (Int.ceil ((1 : ℚ) / b)).toNat)) := by
    refine List.filter_congr ?_
    intro pm hpm
    rw [decide_eq_decide]
    exact npdigitize_eq_iff b pm.1 hb (hph pm hpm) k (by omega)
  rw [specBinMags, ← hgroups]

/-- Claim C4: for a nonempty `times` (the empty case raises) and a positive
`binsize`, `stellingwerf_pdm_theta` partitions the folded phases into the
half-open bins with boundaries `0, binsize, 2·binsize, …`, keeps exactly the
bins with strictly more than `minbin` members, and returns
`[Σ varᵢ·(nᵢ − 1)] / [Σ nᵢ − goodbins] / var(all folded mags)` with unbiased
variances — stated as equality with the spec-side `specTheta`, whose groups
are defined by the interval boundaries rather than by `np.digitize`. -/
theorem stellingwerf_pdm_theta_matches_spec (times mags errs : List ℚ)
    (frequency binsize : ℚ) (minbin : ℕ) (ht : times ≠ []) (hb : 0 < binsize) :
    stellingwerf_pdm_theta times mags errs frequency binsize minbin =
      .ok (specTheta times mags frequency binsize minbin) := by
  match times with
  | [] => exact absurd rfl ht
  | t0 :: ts =>
    simp only [stellingwerf_pdm_theta, specTheta]
    rw [pdm_goodstats_eq (phase_magseries (t0 :: ts) mags (1 / frequency) t0)
      binsize minbin hb (phase_magseries_fst_nonneg _ _ _ _)]

theorem stellingwerf_pdm_theta_matches_spec_witness :
    (([0, 1, 2, 3] : List ℚ) ≠ [] ∧ (0 : ℚ) < 1/2) ∧
    stellingwerf_pdm_theta [0, 1, 2, 3] [1, 2, 3, 4] [0, 0, 0, 0] 1 (1/2) 1 =
      .ok (specTheta [0, 1, 2, 3] [1, 2, 3, 4] 1 (1/2) 1) :=
  ⟨⟨by decide, by decide⟩,
    stellingwerf_pdm_theta_matches_spec [0, 1, 2, 3] [1, 2, 3, 4] [0, 0, 0, 0]
      1 (1/2) 1 (by decide) (by decide)⟩
